import Mathlib

/-!
Shallow embedding of the PrinSp screenshot-annotation front end
(`useAnnotation` history hook, `RegionSelector.vue`, `AnnotationEditor.vue`,
the compositing loop of `App.vue`'s `confirm`, and `toolbarPosition`).
Screen coordinates and style values are modelled as rationals; the
real-valued arrow-head geometry is modelled separately over `ℝ`.
-/

namespace Prinsp

/-- `ToolType` from `src/types/index.ts`. -/
inductive ToolType
  | select
  | arrow
  | rect
  | text
  | mosaic
deriving DecidableEq, Repr

/-- `Point` from `src/types/index.ts`, with rational coordinates. -/
structure Point where
  x : ℚ
  y : ℚ
deriving DecidableEq, Repr

/-- Style record of an annotation (`color`, `lineWidth`, optional `fontSize`). -/
structure AStyle where
  color : String
  lineWidth : ℚ
  fontSize : Option ℚ
deriving DecidableEq, Repr

/-- The annotation record from `src/types/index.ts` (`Annotation` there). -/
structure Annot where
  id : String
  type : ToolType
  points : List Point
  style : AStyle
  text : Option String
deriving DecidableEq, Repr

/-- `Selection` from `src/types/index.ts`. -/
structure Selection where
  x : ℚ
  y : ℚ
  width : ℚ
  height : ℚ
deriving DecidableEq, Repr

/-! ## The `useAnnotation` history hook (src/unnamed/part_000) -/

/-- The mutable state of `useAnnotation`: the visible annotation list, the
snapshot list and the current history index. -/
structure HistState where
  annots : List Annot
  history : List (List Annot)
  historyIndex : ℕ
deriving DecidableEq, Repr

/-- Freshly created history: one empty snapshot, index 0. -/
def initHist : HistState := ⟨[], [[]], 0⟩

/-- `saveHistory`: truncate everything past the current index, push a copy of
the current annotation list, move the index to the new last position. -/
def saveHistory (s : HistState) : HistState :=
  let h := s.history.take (s.historyIndex + 1) ++ [s.annots]
  { s with history := h, historyIndex := h.length - 1 }

/-- `addAnnotation`: push onto the current list, then commit a snapshot. -/
def addAnnot (a : Annot) (s : HistState) : HistState :=
  saveHistory { s with annots := s.annots ++ [a] }

/-- `undo`: move the index back one step and reload that snapshot; no-op at 0. -/
def undo (s : HistState) : HistState :=
  if 0 < s.historyIndex then
    { s with historyIndex := s.historyIndex - 1,
             annots := s.history.getD (s.historyIndex - 1) [] }
  else s

/-- `redo`: move the index forward one step and reload that snapshot; no-op at
the last snapshot. -/
def redo (s : HistState) : HistState :=
  if s.historyIndex < s.history.length - 1 then
    { s with historyIndex := s.historyIndex + 1,
             annots := s.history.getD (s.historyIndex + 1) [] }
  else s

/-- `clear`: empty the current list, then commit a snapshot. -/
def clear (s : HistState) : HistState :=
  saveHistory { s with annots := [] }

/-- `canUndo` computed value. -/
def canUndo (s : HistState) : Bool := decide (0 < s.historyIndex)

/-- `canRedo` computed value. -/
def canRedo (s : HistState) : Bool := decide (s.historyIndex < s.history.length - 1)

/-- One user-visible operation on the history hook. -/
inductive HistOp
  | add (a : Annot)
  | undo
  | redo
  | clear
deriving DecidableEq, Repr

/-- Apply one operation. -/
def applyOp (s : HistState) : HistOp → HistState
  | .add a => addAnnot a s
  | .undo => undo s
  | .redo => redo s
  | .clear => clear s

/-- Run a sequence of operations from a state. -/
def runOps (s : HistState) (ops : List HistOp) : HistState :=
  ops.foldl applyOp s

/-- The reachability invariant of the history hook: the index is in range and
the visible list is the snapshot at the index. -/
def HistInv (s : HistState) : Prop :=
  s.historyIndex < s.history.length ∧ s.annots = s.history.getD s.historyIndex []

/-! ## RegionSelector.vue -/

/-- State of the region selector: drag flag, anchor and current point. -/
structure RSState where
  isSelecting : Bool
  startPoint : Point
  endPoint : Point
deriving DecidableEq, Repr

/-- Initial selector state. -/
def initRS : RSState := ⟨false, ⟨0, 0⟩, ⟨0, 0⟩⟩

/-- The `selection` computed value, as a function of the two tracked points. -/
def selectionOf (s e : Point) : Selection :=
  { x := min s.x e.x
    y := min s.y e.y
    width := |e.x - s.x|
    height := |e.y - s.y| }

/-- The selector's live `selection` computed value. -/
def rsSelection (s : RSState) : Selection :=
  selectionOf s.startPoint s.endPoint

/-- The `hasSelection` computed value (`width > 10 && height > 10`). -/
def hasSelection (s : RSState) : Bool :=
  decide (10 < (rsSelection s).width) && decide (10 < (rsSelection s).height)

/-- `onMouseDown`: ignored when the event originates inside the capture
toolbar; otherwise start a drag with both points at the cursor. -/
def rsMouseDown (onToolbar : Bool) (p : Point) (_s : RSState) : RSState :=
  if onToolbar then _s else ⟨true, p, p⟩

/-- `onMouseMove`: while dragging, track the current point. -/
def rsMouseMove (p : Point) (s : RSState) : RSState :=
  if s.isSelecting then { s with endPoint := p } else s

/-- `onMouseUp`: emit the live selection when dragging and `hasSelection`;
either way the drag flag is cleared. -/
def rsMouseUp (s : RSState) : RSState × Option Selection :=
  ({ s with isSelecting := false },
   if s.isSelecting && hasSelection s then some (rsSelection s) else none)

/-- A drag: mouse-down at `a` (off the toolbar) followed by a sequence of
mouse-moves. -/
def rsDrag (a : Point) (moves : List Point) : RSState :=
  moves.foldl (fun s p => rsMouseMove p s) (rsMouseDown false a initRS)

/-! ## AnnotationEditor.vue drawing machine -/

/-- State of the annotation editor's pointer/text machinery.  `dragTool` is a
ghost field not present in the source: it records which tool was selected when
the current drag started, so that the environment assumption "the tool prop
does not change during a drag" can be stated. -/
structure EdState where
  isDrawing : Bool
  startPoint : Point
  currentPoints : List Point
  textPosition : Option Point
  textInput : String
  dragTool : ToolType
deriving DecidableEq, Repr

/-- Initial editor state. -/
def initEd : EdState := ⟨false, ⟨0, 0⟩, [], none, "", ToolType.select⟩

/-- `onMouseDown`: no-op for the select tool; the text tool only records the
text-input position; drawing tools start a drag with one recorded point. -/
def edMouseDown (tool : ToolType) (pos : Point) (s : EdState) : EdState :=
  if tool = ToolType.select then s
  else if tool = ToolType.text then { s with textPosition := some pos }
  else { s with isDrawing := true, startPoint := pos, currentPoints := [pos],
                dragTool := tool }

/-- `onMouseMove`: while drawing, the tracked points become anchor plus the
current cursor position. -/
def edMouseMove (pos : Point) (s : EdState) : EdState :=
  if s.isDrawing then { s with currentPoints := [s.startPoint, pos] } else s

/-- `onMouseUp`: if drawing, stop; emit an annotation exactly when at least two
points were tracked; the tracked points are cleared in both cases.  The tool,
color and line width are the component props at the time of the event. -/
def edMouseUp (id : String) (tool : ToolType) (color : String) (lw : ℚ)
    (s : EdState) : EdState × Option Annot :=
  if s.isDrawing then
    if 2 ≤ s.currentPoints.length then
      ({ s with isDrawing := false, currentPoints := [] },
       some ⟨id, tool, s.currentPoints, ⟨color, lw, none⟩, none⟩)
    else
      ({ s with isDrawing := false, currentPoints := [] }, none)
  else (s, none)

/-- `submitText`: emit a one-point text annotation when a text position is set
and the input is non-empty; then reset both. -/
def edSubmitText (id : String) (color : String) (lw : ℚ)
    (s : EdState) : EdState × Option Annot :=
  match s.textPosition with
  | some p =>
    if s.textInput = "" then (s, none)
    else
      ({ s with textInput := "", textPosition := none },
       some ⟨id, ToolType.text, [p], ⟨color, lw, some 16⟩, some s.textInput⟩)
  | none => (s, none)

/-- Events fed to the editor; prop values (tool, color, line width, fresh id)
travel with the event that reads them. -/
inductive EdEvent
  | mouseDown (tool : ToolType) (pos : Point)
  | mouseMove (pos : Point)
  | mouseUp (id : String) (tool : ToolType) (color : String) (lw : ℚ)
  | setTextInput (s : String)
  | submitText (id : String) (color : String) (lw : ℚ)
  | cancelText
deriving DecidableEq, Repr

/-- One editor step; returns the annotation emitted by the event, if any. -/
def edStep (s : EdState) : EdEvent → EdState × Option Annot
  | .mouseDown t p => (edMouseDown t p s, none)
  | .mouseMove p => (edMouseMove p s, none)
  | .mouseUp i t c l => edMouseUp i t c l s
  | .setTextInput str => ({ s with textInput := str }, none)
  | .submitText i c l => edSubmitText i c l s
  | .cancelText => ({ s with textPosition := none }, none)

/-- Run the editor over an event list, collecting every emitted annotation. -/
def edRun (s : EdState) : List EdEvent → EdState × List Annot
  | [] => (s, [])
  | e :: es =>
    let r := edStep s e
    let rest := edRun r.1 es
    (rest.1, r.2.toList ++ rest.2)

/-- Environment assumption: a mouse-up that ends a drag carries the same tool
prop as the mouse-down that started the drag.  In the application this holds
because the tool can only change through toolbar clicks, and leaving the canvas
fires `mouseleave`, which ends the drag first. -/
def edStableHead (s : EdState) : EdEvent → Bool
  | .mouseUp _ t _ _ => !s.isDrawing || decide (t = s.dragTool)
  | _ => true

/-- Recursive check of the environment assumption along a trace. -/
def edToolStable (s : EdState) : List EdEvent → Bool
  | [] => true
  | e :: es => edStableHead s e && edToolStable (edStep s e).1 es

/-- Editor machine invariant: at most two points are ever tracked, and a drag
in progress was started by a drawing tool. -/
def EdInv (s : EdState) : Prop :=
  s.currentPoints.length ≤ 2 ∧
    (s.isDrawing = true → s.dragTool ≠ ToolType.select ∧ s.dragTool ≠ ToolType.text)

/-- The point-count invariant an emitted annotation must satisfy. -/
def GoodEmit (a : Annot) : Prop :=
  ((a.type = ToolType.rect ∨ a.type = ToolType.arrow ∨ a.type = ToolType.mosaic) →
    a.points.length = 2) ∧
  (a.type = ToolType.text → a.points.length = 1 ∧ a.text.getD "" ≠ "")

/-! ## The compositing loop of `App.vue`'s `confirm`

The canvas is modelled by the trace of drawing commands issued to it: canvas
rasterization is a deterministic function of this trace and the base image.
`Math.cos`, `Math.sin`, `Math.atan2` and `Math.PI` are deterministic library
functions; they are abstracted as parameters.  `Math.random` is modelled as a
stream of draws indexed by call count. -/

/-- The deterministic math library used by the arrow branch. -/
structure MathEnv where
  cos : ℚ → ℚ
  sin : ℚ → ℚ
  atan2 : ℚ → ℚ → ℚ
  pi : ℚ

/-- One drawing command issued to the output canvas. -/
inductive Cmd
  | drawImage (data : String)
  | setStyle (color : String) (lineWidth : ℚ)
  | strokeRect (x y w h : ℚ)
  | strokeLine (x1 y1 x2 y2 : ℚ)
  | fillTri (x1 y1 x2 y2 x3 y3 : ℚ)
  | fillText (text : String) (x y fontSize : ℚ)
  | setFillGray (g : ℤ)
  | fillRect (x y w h : ℚ)
deriving DecidableEq, Repr

/-- Number of iterations of the loop `for (v = 0; v < w; v += 10)`. -/
def mosaicSteps (w : ℚ) : ℕ := ⌈w / 10⌉₊

/-- The mosaic block grid, outer loop over x, inner loop over y, in execution
order. -/
def mosaicCells (w h : ℚ) : List (ℕ × ℕ) :=
  (List.range (mosaicSteps w)).flatMap fun i =>
    (List.range (mosaicSteps h)).map fun j => (i, j)

/-- One gray sample: `Math.floor(Math.random() * 100) + 100` with the random
draw taken from the stream at position `n`. -/
def graySample (rng : ℕ → ℚ) (n : ℕ) : ℤ := ⌊rng n * 100⌋ + 100

/-- Commands issued for one annotation by the `confirm` loop, threading the
count `k` of random draws consumed so far.  In the source the text branch
indexes `a.points[0]` unguarded; here the head of the list is taken with a
default, which agrees with the source on every reachable annotation. -/
def renderAnnot (m : MathEnv) (rng : ℕ → ℚ) (k : ℕ) (a : Annot) :
    List Cmd × ℕ :=
  let styleCmd := Cmd.setStyle a.style.color a.style.lineWidth
  match a.type, a.points with
  | ToolType.rect, p1 :: p2 :: _ =>
    ([styleCmd, .strokeRect p1.x p1.y (p2.x - p1.x) (p2.y - p1.y)], k)
  | ToolType.arrow, p1 :: p2 :: _ =>
    let angle := m.atan2 (p2.y - p1.y) (p2.x - p1.x)
    ([styleCmd, .strokeLine p1.x p1.y p2.x p2.y,
      .fillTri p2.x p2.y
        (p2.x - 15 * m.cos (angle - m.pi / 6)) (p2.y - 15 * m.sin (angle - m.pi / 6))
        (p2.x - 15 * m.cos (angle + m.pi / 6)) (p2.y - 15 * m.sin (angle + m.pi / 6))], k)
  | ToolType.text, _ =>
    match a.text with
    | some t =>
      if t = "" then ([styleCmd], k)
      else
        ([styleCmd, .fillText t (a.points.headD ⟨0, 0⟩).x (a.points.headD ⟨0, 0⟩).y
          (a.style.fontSize.getD 16)], k)
    | none => ([styleCmd], k)
  | ToolType.mosaic, p1 :: p2 :: _ =>
    let x := min p1.x p2.x
    let y := min p1.y p2.y
    let w := |p2.x - p1.x|
    let h := |p2.y - p1.y|
    let cells := mosaicCells w h
    let body := cells.enum.flatMap fun c =>
      [Cmd.setFillGray (graySample rng (k + c.1)),
       Cmd.fillRect (x + 10 * (c.2.1 : ℚ)) (y + 10 * (c.2.2 : ℚ)) 10 10]
    (styleCmd :: body, k + cells.length)
  | _, _ => ([styleCmd], k)

/-- Fold `renderAnnot` over the annotation list, threading the random-draw
count. -/
def compositeGo (m : MathEnv) (rng : ℕ → ℚ) : List Annot → ℕ → List Cmd
  | [], _ => []
  | a :: as, k =>
    let r := renderAnnot m rng k a
    r.1 ++ compositeGo m rng as r.2

/-- The full composite: draw the cropped base image, then every annotation in
list order. -/
def composite (m : MathEnv) (base : String) (annots : List Annot)
    (rng : ℕ → ℚ) : List Cmd :=
  Cmd.drawImage base :: compositeGo m rng annots 0

/-! ## `toolbarPosition` from App.vue -/

/-- `TOOLBAR_WIDTH` constant. -/
def TOOLBAR_WIDTH : ℚ := 580

/-- `TOOLBAR_HEIGHT` constant. -/
def TOOLBAR_HEIGHT : ℚ := 48

/-- `TOOLBAR_GAP` constant. -/
def TOOLBAR_GAP : ℚ := 10

/-- Horizontal anchoring of the toolbar: either a `right` distance from the
right screen edge, or a `left` coordinate. -/
inductive HAnchor
  | rightEdge (right : ℚ)
  | leftEdge (left : ℚ)
deriving DecidableEq, Repr

/-- Resolved toolbar placement. -/
structure ToolbarPos where
  anchor : HAnchor
  top : ℚ
deriving DecidableEq, Repr

/-- The `toolbarPosition` computed value, translated from `App.vue`. -/
def toolbarPosition (screenW screenH : ℚ) (sel : Selection) : ToolbarPos :=
  let bottomSpace := screenH - (sel.y + sel.height)
  let topSpace := sel.y
  let top :=
    if TOOLBAR_HEIGHT + TOOLBAR_GAP ≤ bottomSpace then
      sel.y + sel.height + TOOLBAR_GAP
    else if TOOLBAR_HEIGHT + TOOLBAR_GAP ≤ topSpace then
      sel.y - TOOLBAR_HEIGHT - TOOLBAR_GAP
    else
      max 0 (min (sel.y + sel.height + TOOLBAR_GAP) (screenH - TOOLBAR_HEIGHT))
  let margin : ℚ := 8
  if screenW - sel.x < TOOLBAR_WIDTH + margin then
    ⟨HAnchor.rightEdge margin, top⟩
  else
    ⟨HAnchor.leftEdge (if sel.x < margin then margin else sel.x), top⟩

/-- The placement rule as the specification words it: below when the panel and
gap fit under the selection, else above when they fit over it, else clamped;
right-anchored at `margin` when the space right of `sel.x` is narrower than the
panel plus margin, else left-aligned to `max margin sel.x`. -/
def toolbarPositionSpec (screenW screenH : ℚ) (sel : Selection) : ToolbarPos :=
  let top :=
    if screenH - (sel.y + sel.height) ≥ TOOLBAR_HEIGHT + TOOLBAR_GAP then
      sel.y + sel.height + TOOLBAR_GAP
    else if sel.y ≥ TOOLBAR_HEIGHT + TOOLBAR_GAP then
      sel.y - TOOLBAR_HEIGHT - TOOLBAR_GAP
    else
      max 0 (min (sel.y + sel.height + TOOLBAR_GAP) (screenH - TOOLBAR_HEIGHT))
  if screenW - sel.x < TOOLBAR_WIDTH + 8 then
    ⟨HAnchor.rightEdge 8, top⟩
  else
    ⟨HAnchor.leftEdge (max 8 sel.x), top⟩

/-! ## Arrow-head geometry over the reals (`drawArrow`) -/

/-- A point with real coordinates, for the exact arrow geometry. -/
structure RPoint where
  x : ℝ
  y : ℝ

/-- `Math.atan2`, on the reals. -/
noncomputable def atan2 (y x : ℝ) : ℝ :=
  if 0 < x then Real.arctan (y / x)
  else if x < 0 ∧ 0 ≤ y then Real.arctan (y / x) + Real.pi
  else if x < 0 then Real.arctan (y / x) - Real.pi
  else if 0 < y then Real.pi / 2
  else if y < 0 then -(Real.pi / 2)
  else 0

/-- The head triangle drawn by `drawArrow`: tip at the endpoint, then the two
wing vertices, in path order. -/
noncomputable def drawArrowHead (p0 p1 : RPoint) : RPoint × RPoint × RPoint :=
  let headLen : ℝ := 15
  let angle := atan2 (p1.y - p0.y) (p1.x - p0.x)
  (p1,
   ⟨p1.x - headLen * Real.cos (angle - Real.pi / 6),
    p1.y - headLen * Real.sin (angle - Real.pi / 6)⟩,
   ⟨p1.x - headLen * Real.cos (angle + Real.pi / 6),
    p1.y - headLen * Real.sin (angle + Real.pi / 6)⟩)

/-! ## Concrete inputs used by witness theorems -/

/-- A concrete rectangle annotation. -/
def c9A : Annot := ⟨"a", ToolType.rect, [⟨0, 0⟩, ⟨1, 1⟩], ⟨"#ff0000", 3, none⟩, none⟩

/-- A concrete arrow annotation. -/
def c9B : Annot := ⟨"b", ToolType.arrow, [⟨0, 0⟩, ⟨2, 2⟩], ⟨"#00ff00", 3, none⟩, none⟩

/-- A concrete valid history whose visible list is `[c9A, c9B]`. -/
def c9S : HistState := ⟨[c9A, c9B], [[c9A, c9B]], 0⟩

/-- A concrete math environment for compositor runs. -/
def c6M : MathEnv := ⟨fun q => q, fun q => q, fun y x => y + x, 3⟩

/-- A concrete mosaic annotation covering one block. -/
def c6Mos : Annot := ⟨"m", ToolType.mosaic, [⟨0, 0⟩, ⟨5, 5⟩], ⟨"#ff0000", 3, none⟩, none⟩

/-- A concrete rectangle annotation for the deterministic composite. -/
def c6Rect : Annot := ⟨"r", ToolType.rect, [⟨0, 0⟩, ⟨2, 3⟩], ⟨"#ff0000", 3, none⟩, none⟩

/-- A concrete editor trace: one full rectangle drag. -/
def c10Events : List EdEvent :=
  [EdEvent.mouseDown ToolType.rect ⟨0, 0⟩, EdEvent.mouseMove ⟨5, 5⟩,
   EdEvent.mouseUp "1" ToolType.rect "#ff0000" 3]

/-- The annotation the concrete trace emits. -/
def c10Ann : Annot := ⟨"1", ToolType.rect, [⟨0, 0⟩, ⟨5, 5⟩], ⟨"#ff0000", 3, none⟩, none⟩

/-! ## List helpers -/

/-- Reading just past a list, at the appended element. -/
theorem getD_concat_length {α : Type} (l : List α) (x d : α) :
    (l ++ [x]).getD l.length d = x := by
  induction l with
  | nil => rfl
  | cons a l ih =>
    simp only [List.cons_append, List.length_cons, List.getD_cons_succ]
    exact ih

/-- Reading a `take` below the cut agrees with reading the list. -/
theorem getD_take_of_lt {α : Type} (l : List α) (m n : ℕ) (d : α) (h : n < m) :
    (l.take m).getD n d = l.getD n d := by
  induction l generalizing m n with
  | nil => simp
  | cons a l ih =>
    cases m with
    | zero => omega
    | succ m =>
      cases n with
      | zero => simp
      | succ n =>
        simp only [List.take_succ_cons, List.getD_cons_succ]
        exact ih m n (by omega)

/-- Reading an append below the left length agrees with reading the left list. -/
theorem getD_append_of_lt {α : Type} (l l' : List α) (n : ℕ) (d : α)
    (h : n < l.length) : (l ++ l').getD n d = l.getD n d := by
  induction l generalizing n with
  | nil => simp at h
  | cons a l ih =>
    cases n with
    | zero => simp
    | succ n => simpa using ih n (by simpa using Nat.lt_of_succ_lt_succ h)

/-! ## History hook invariants -/

/-- After a commit, the index points at the snapshot just pushed. -/
theorem histInv_saveHistory (s : HistState) : HistInv (saveHistory s) := by
  unfold HistInv saveHistory
  refine ⟨?_, ?_⟩
  · simp
  · simp only [List.length_append, List.length_cons, List.length_nil]
    have : (s.history.take (s.historyIndex + 1)).length + 1 - 1 =
        (s.history.take (s.historyIndex + 1)).length := rfl
    rw [this, getD_concat_length]

/-- `undo` preserves the reachability invariant. -/
theorem histInv_undo (s : HistState) (hs : HistInv s) : HistInv (undo s) := by
  unfold undo
  split
  · refine ⟨?_, rfl⟩
    have := hs.1
    dsimp only
    omega
  · exact hs

/-- `redo` preserves the reachability invariant. -/
theorem histInv_redo (s : HistState) (hs : HistInv s) : HistInv (redo s) := by
  unfold redo
  split
  · refine ⟨?_, rfl⟩
    have := hs.1
    dsimp only
    omega
  · exact hs

/-- Every history operation preserves the reachability invariant. -/
theorem histInv_applyOp (s : HistState) (hs : HistInv s) (op : HistOp) :
    HistInv (applyOp s op) := by
  cases op with
  | add a => exact histInv_saveHistory _
  | clear => exact histInv_saveHistory _
  | undo => exact histInv_undo s hs
  | redo => exact histInv_redo s hs

/-- Running any operation sequence preserves the invariant. -/
theorem histInv_runOps (s : HistState) (hs : HistInv s) (ops : List HistOp) :
    HistInv (runOps s ops) := by
  induction ops generalizing s with
  | nil => exact hs
  | cons op ops ih => exact ih (applyOp s op) (histInv_applyOp s hs op)

/-- Claim C1: for every sequence of addAnnotation/undo/redo/clear operations on
a freshly created history (one empty snapshot, index 0), the index stays within
`0 ≤ historyIndex < length history`, `canUndo` holds exactly when the index is
positive, `canRedo` exactly when the index is before the last snapshot, and the
visible annotation list is the snapshot at the index. -/
theorem C1_history_invariant (ops : List HistOp) :
    0 ≤ (runOps initHist ops).historyIndex ∧
    (runOps initHist ops).historyIndex < (runOps initHist ops).history.length ∧
    (canUndo (runOps initHist ops) = true ↔ 0 < (runOps initHist ops).historyIndex) ∧
    (canRedo (runOps initHist ops) = true ↔
      (runOps initHist ops).historyIndex < (runOps initHist ops).history.length - 1) ∧
    (runOps initHist ops).annots =
      (runOps initHist ops).history.getD (runOps initHist ops).historyIndex [] := by
  have h := histInv_runOps initHist ⟨by decide, rfl⟩ ops
  exact ⟨Nat.zero_le _, h.1, by simp [canUndo], by simp [canRedo], h.2⟩

/-- Claim C2: starting from snapshots `[[], [A]]` at index 1, `undo` moves to
index 0 with an empty visible list, and adding `B` then yields exactly the
snapshots `[[], [B]]` at index 1; moreover, immediately after any
`addAnnotation` the `canRedo` flag is false and `redo` is a no-op. -/
theorem C2_add_discards_redo_branch (A B : Annot) :
    (undo ⟨[A], [[], [A]], 1⟩).historyIndex = 0 ∧
    (undo ⟨[A], [[], [A]], 1⟩).annots = [] ∧
    addAnnot B (undo ⟨[A], [[], [A]], 1⟩) = (⟨[B], [[], [B]], 1⟩ : HistState) ∧
    (∀ (s : HistState) (a : Annot), canRedo (addAnnot a s) = false) ∧
    (∀ (s : HistState) (a : Annot), redo (addAnnot a s) = addAnnot a s) := by
  refine ⟨rfl, rfl, rfl, ?_, ?_⟩
  · intro s a
    simp [canRedo, addAnnot, saveHistory]
  · intro s a
    unfold redo
    split
    · rename_i hlt
      simp [addAnnot, saveHistory] at hlt
    · rfl

/-- Claim C9: on any valid history whose visible list is `[A, B]`, a `clear`
followed by an `undo` restores the visible list to exactly `[A, B]`. -/
theorem C9_clear_is_undoable (s : HistState) (A B : Annot)
    (h1 : s.historyIndex < s.history.length)
    (h2 : s.annots = s.history.getD s.historyIndex [])
    (h3 : s.annots = [A, B]) :
    (undo (clear s)).annots = [A, B] := by
  have hlen : (s.history.take (s.historyIndex + 1)).length = s.historyIndex + 1 := by
    rw [List.length_take]
    omega
  have hcli : (clear s).historyIndex = s.historyIndex + 1 := by
    unfold clear saveHistory
    simp [List.length_take]
    omega
  have hclh : (clear s).history = s.history.take (s.historyIndex + 1) ++ [[]] := rfl
  have h0 : 0 < (clear s).historyIndex := by
    rw [hcli]
    omega
  unfold undo
  rw [if_pos h0]
  dsimp only
  rw [hcli, hclh]
  have hsub : s.historyIndex + 1 - 1 = s.historyIndex := rfl
  rw [hsub, getD_append_of_lt _ _ _ _ (by rw [hlen]; omega),
    getD_take_of_lt _ _ _ _ (Nat.lt_succ_self _), ← h2, h3]

/-- Witness for C9 at a concrete valid history holding two annotations. -/
theorem C9_clear_is_undoable_witness :
    (c9S.historyIndex < c9S.history.length ∧
      c9S.annots = c9S.history.getD c9S.historyIndex [] ∧
      c9S.annots = [c9A, c9B]) ∧
    (undo (clear c9S)).annots = [c9A, c9B] :=
  ⟨⟨by decide, by decide, by decide⟩,
   C9_clear_is_undoable c9S c9A c9B (by decide) (by decide) (by decide)⟩

/-! ## RegionSelector theorems -/

/-- Folding mouse-moves over a drag in progress keeps the anchor and tracks
the last move. -/
theorem rsDrag_foldl (a e : Point) (moves : List Point) :
    moves.foldl (fun s p => rsMouseMove p s) ⟨true, a, e⟩ =
      ⟨true, a, moves.getLastD e⟩ := by
  induction moves generalizing e with
  | nil => rfl
  | cons p ps ih =>
    simp only [List.foldl_cons, List.getLastD_cons]
    have hstep : rsMouseMove p ⟨true, a, e⟩ = (⟨true, a, p⟩ : RSState) := rfl
    rw [hstep]
    exact ih p

/-- A drag from `a` through `moves` ends with anchor `a` and current point the
last move (or `a` when there was none). -/
theorem rsDrag_eq (a : Point) (moves : List Point) :
    rsDrag a moves = ⟨true, a, moves.getLastD a⟩ :=
  rsDrag_foldl a a moves

/-- Claim C3: during a drag the live selection is the normalized rectangle of
the anchor and the current point: componentwise minimum corner, absolute-value
extents, hence non-negative width and height and a top-left `(x, y)`;
dragging `(120,80) → (40,30)` and the reverse drag both give
`Selection ⟨40, 30, 80, 50⟩`. -/
theorem C3_drag_normalization (a c : Point) (moves : List Point) :
    selectionOf a c = ⟨min a.x c.x, min a.y c.y, |c.x - a.x|, |c.y - a.y|⟩ ∧
    0 ≤ (selectionOf a c).width ∧ 0 ≤ (selectionOf a c).height ∧
    (selectionOf a c).x ≤ a.x ∧ (selectionOf a c).x ≤ c.x ∧
    (selectionOf a c).y ≤ a.y ∧ (selectionOf a c).y ≤ c.y ∧
    rsSelection (rsDrag a moves) = selectionOf a (moves.getLastD a) ∧
    selectionOf ⟨120, 80⟩ ⟨40, 30⟩ = ⟨40, 30, 80, 50⟩ ∧
    selectionOf ⟨40, 30⟩ ⟨120, 80⟩ = ⟨40, 30, 80, 50⟩ := by
  refine ⟨rfl, abs_nonneg _, abs_nonneg _, min_le_left _ _, min_le_right _ _,
    min_le_left _ _, min_le_right _ _, ?_, by norm_num [selectionOf],
    by norm_num [selectionOf]⟩
  rw [rsDrag_eq]
  rfl

/-- The value `onMouseUp` emits, as a function of the live selection. -/
theorem rsMouseUp_emits (s : RSState) (hsel : s.isSelecting = true) :
    (rsMouseUp s).2 =
      if 10 < (rsSelection s).width ∧ 10 < (rsSelection s).height
        then some (rsSelection s) else none := by
  unfold rsMouseUp hasSelection
  rw [hsel]
  by_cases hw : 10 < (rsSelection s).width <;>
    by_cases hh : 10 < (rsSelection s).height <;>
      simp [hw, hh]

/-- Claim C4: pointer-up ends the drag in every case, and—when a drag was in
progress—emits the live selection exactly when its width and height both
exceed 10; a finished drag of extent 10×10 emits nothing while 11×11 emits. -/
theorem C4_mouseup_threshold (s : RSState) :
    (rsMouseUp s).1.isSelecting = false ∧
    (s.isSelecting = true →
      (((rsMouseUp s).2 = some (rsSelection s)) ↔
        (10 < (rsSelection s).width ∧ 10 < (rsSelection s).height))) ∧
    (s.isSelecting = true →
      ((rsMouseUp s).2 = none ↔
        ¬(10 < (rsSelection s).width ∧ 10 < (rsSelection s).height))) ∧
    (rsMouseUp (rsDrag ⟨0, 0⟩ [⟨10, 10⟩])).2 = none ∧
    (rsMouseUp (rsDrag ⟨0, 0⟩ [⟨11, 11⟩])).2 = some ⟨0, 0, 11, 11⟩ := by
  refine ⟨rfl, ?_, ?_,
    by norm_num [rsDrag_eq, rsMouseUp, hasSelection, rsSelection, selectionOf],
    by norm_num [rsDrag_eq, rsMouseUp, hasSelection, rsSelection, selectionOf]⟩
  · intro hsel
    rw [rsMouseUp_emits s hsel]
    by_cases h : 10 < (rsSelection s).width ∧ 10 < (rsSelection s).height <;>
      simp [h]
  · intro hsel
    rw [rsMouseUp_emits s hsel]
    by_cases h : 10 < (rsSelection s).width ∧ 10 < (rsSelection s).height <;>
      simp [h]

/-- Witness for C4 at a concrete dragging state of extent 20×20. -/
theorem C4_mouseup_threshold_witness :
    ((⟨true, ⟨0, 0⟩, ⟨20, 20⟩⟩ : RSState).isSelecting = true) ∧
    (((rsMouseUp ⟨true, ⟨0, 0⟩, ⟨20, 20⟩⟩).2 =
        some (rsSelection ⟨true, ⟨0, 0⟩, ⟨20, 20⟩⟩)) ↔
      (10 < (rsSelection ⟨true, ⟨0, 0⟩, ⟨20, 20⟩⟩).width ∧
        10 < (rsSelection ⟨true, ⟨0, 0⟩, ⟨20, 20⟩⟩).height)) :=
  ⟨rfl, (C4_mouseup_threshold ⟨true, ⟨0, 0⟩, ⟨20, 20⟩⟩).2.1 rfl⟩

/-! ## Toolbar layout theorems -/

/-- Claim C7: the toolbar placement follows the specification rule: below the
selection when panel plus gap fit underneath, else above when they fit over it,
else clamped into the viewport; right-anchored at the margin exactly when the
space right of the selection is narrower than panel width plus margin, else
left-aligned to `max margin sel.x`; in particular at viewport width 1280 with
`sel.x = 950` the right-anchored branch is chosen. -/
theorem C7_toolbar_placement (screenW screenH : ℚ) (sel : Selection) :
    toolbarPosition screenW screenH sel = toolbarPositionSpec screenW screenH sel ∧
    ((1280 : ℚ) - 950 < TOOLBAR_WIDTH + 8) ∧
    (toolbarPosition 1280 800 ⟨950, 100, 50, 50⟩).anchor = HAnchor.rightEdge 8 := by
  refine ⟨?_, by norm_num [TOOLBAR_WIDTH],
    by norm_num [toolbarPosition, TOOLBAR_WIDTH, TOOLBAR_HEIGHT, TOOLBAR_GAP]⟩
  have hmax : (if sel.x < 8 then (8 : ℚ) else sel.x) = max 8 sel.x := by
    rcases le_or_lt sel.x 8 with h | h
    · rw [max_eq_left h]
      by_cases h8 : sel.x < 8
      · simp [h8]
      · simp only [if_neg h8]
        linarith [not_lt.mp h8]
    · rw [if_neg (not_lt.mpr h.le), max_eq_right h.le]
  unfold toolbarPosition toolbarPositionSpec
  simp only [ge_iff_le]
  rw [hmax]

/-- Counterexample to claim C8: for viewport height 600 and a selection with
`y = 590`, `height = 5`, the resolved toolbar top is 532, not 552. -/
theorem C8_counterexample :
    (toolbarPosition 1280 600 ⟨100, 590, 50, 5⟩).top = 532 ∧ (532 : ℚ) ≠ 552 := by
  constructor
  · norm_num [toolbarPosition, TOOLBAR_WIDTH, TOOLBAR_HEIGHT, TOOLBAR_GAP]
  · norm_num

/-- Claim C8 as amended: for viewport height 600 and the selection with
`sel.y = 590`, `sel.height = 5`, there is no room below (5 < 58) but there is
room above (590 ≥ 58), so the above-placement branch resolves
`top = 590 - 48 - 10 = 532`; the clamp branch is not reached. -/
theorem C8_amended :
    ((600 : ℚ) - (590 + 5) < TOOLBAR_HEIGHT + TOOLBAR_GAP) ∧
    ((590 : ℚ) ≥ TOOLBAR_HEIGHT + TOOLBAR_GAP) ∧
    (toolbarPosition 1280 600 ⟨100, 590, 50, 5⟩).top =
      590 - TOOLBAR_HEIGHT - TOOLBAR_GAP ∧
    (toolbarPosition 1280 600 ⟨100, 590, 50, 5⟩).top = 532 := by
  refine ⟨by norm_num [TOOLBAR_HEIGHT, TOOLBAR_GAP],
    by norm_num [TOOLBAR_HEIGHT, TOOLBAR_GAP],
    by norm_num [toolbarPosition, TOOLBAR_WIDTH, TOOLBAR_HEIGHT, TOOLBAR_GAP],
    by norm_num [toolbarPosition, TOOLBAR_WIDTH, TOOLBAR_HEIGHT, TOOLBAR_GAP]⟩

/-! ## Arrow geometry theorems -/

/-- The direction angle of the horizontal arrow is zero. -/
theorem atan2_zero_hundred : atan2 0 100 = 0 := by
  unfold atan2
  rw [if_pos (by norm_num)]
  norm_num [Real.arctan_zero]

/-- Bounds on the square root of three. -/
theorem sqrt_three_bounds : (1.7320 : ℝ) < Real.sqrt 3 ∧ Real.sqrt 3 < 1.7321 := by
  have hsq := Real.sq_sqrt (show (0 : ℝ) ≤ 3 by norm_num)
  have hnn := Real.sqrt_nonneg (3 : ℝ)
  constructor
  · nlinarith
  · nlinarith

/-- Claim C5: the arrow head is a triangle with tip at the endpoint and wing
vertices 15 units back along the angles θ ∓ π/6, where θ = atan2(dy, dx); for
the horizontal arrow (0,0) → (100,0) the wings are at (100 − 15·cos(π/6), 7.5)
and (100 − 15·cos(π/6), −7.5), their shared x-coordinate lying within 0.01 of
87.01. -/
theorem C5_arrow_head_geometry (p0 p1 : RPoint) :
    (drawArrowHead p0 p1).1 = p1 ∧
    ((drawArrowHead p0 p1).2.1).x =
      p1.x - 15 * Real.cos (atan2 (p1.y - p0.y) (p1.x - p0.x) - Real.pi / 6) ∧
    ((drawArrowHead p0 p1).2.1).y =
      p1.y - 15 * Real.sin (atan2 (p1.y - p0.y) (p1.x - p0.x) - Real.pi / 6) ∧
    ((drawArrowHead p0 p1).2.2).x =
      p1.x - 15 * Real.cos (atan2 (p1.y - p0.y) (p1.x - p0.x) + Real.pi / 6) ∧
    ((drawArrowHead p0 p1).2.2).y =
      p1.y - 15 * Real.sin (atan2 (p1.y - p0.y) (p1.x - p0.x) + Real.pi / 6) ∧
    (drawArrowHead ⟨0, 0⟩ ⟨100, 0⟩).1 = (⟨100, 0⟩ : RPoint) ∧
    ((drawArrowHead ⟨0, 0⟩ ⟨100, 0⟩).2.1).x = 100 - 15 * Real.cos (Real.pi / 6) ∧
    ((drawArrowHead ⟨0, 0⟩ ⟨100, 0⟩).2.1).y = 15 / 2 ∧
    ((drawArrowHead ⟨0, 0⟩ ⟨100, 0⟩).2.2).x = 100 - 15 * Real.cos (Real.pi / 6) ∧
    ((drawArrowHead ⟨0, 0⟩ ⟨100, 0⟩).2.2).y = -(15 / 2) ∧
    |((drawArrowHead ⟨0, 0⟩ ⟨100, 0⟩).2.1).x - 8701 / 100| < 1 / 100 := by
  have hang : atan2 ((0 : ℝ) - 0) ((100 : ℝ) - 0) = 0 := by
    rw [show ((0 : ℝ) - 0) = 0 by ring, show ((100 : ℝ) - 0) = 100 by ring,
      atan2_zero_hundred]
  have hx1 : ((drawArrowHead ⟨0, 0⟩ ⟨100, 0⟩).2.1).x =
      100 - 15 * Real.cos (Real.pi / 6) := by
    show (100 : ℝ) - 15 * Real.cos (atan2 ((0 : ℝ) - 0) ((100 : ℝ) - 0) - Real.pi / 6) = _
    rw [hang, zero_sub, Real.cos_neg]
  have hy1 : ((drawArrowHead ⟨0, 0⟩ ⟨100, 0⟩).2.1).y = 15 / 2 := by
    show (0 : ℝ) - 15 * Real.sin (atan2 ((0 : ℝ) - 0) ((100 : ℝ) - 0) - Real.pi / 6) = _
    rw [hang, show (0 : ℝ) - Real.pi / 6 = -(Real.pi / 6) by ring, Real.sin_neg,
      Real.sin_pi_div_six]
    ring
  have hx2 : ((drawArrowHead ⟨0, 0⟩ ⟨100, 0⟩).2.2).x =
      100 - 15 * Real.cos (Real.pi / 6) := by
    show (100 : ℝ) - 15 * Real.cos (atan2 ((0 : ℝ) - 0) ((100 : ℝ) - 0) + Real.pi / 6) = _
    rw [hang, zero_add]
  have hy2 : ((drawArrowHead ⟨0, 0⟩ ⟨100, 0⟩).2.2).y = -(15 / 2) := by
    show (0 : ℝ) - 15 * Real.sin (atan2 ((0 : ℝ) - 0) ((100 : ℝ) - 0) + Real.pi / 6) = _
    rw [hang, zero_add, Real.sin_pi_div_six]
    ring
  have hb : |((drawArrowHead ⟨0, 0⟩ ⟨100, 0⟩).2.1).x - 8701 / 100| < 1 / 100 := by
    rw [hx1, Real.cos_pi_div_six]
    have h3 := sqrt_three_bounds
    rw [abs_lt]
    constructor
    · nlinarith [h3.2]
    · nlinarith [h3.1]
  exact ⟨rfl, rfl, rfl, rfl, rfl, rfl, hx1, hy1, hx2, hy2, hb⟩

/-! ## Compositor determinism -/

/-- Rendering a non-mosaic annotation neither reads nor advances the random
stream. -/
theorem renderAnnot_rngFree (m : MathEnv) (a : Annot) (r1 r2 : ℕ → ℚ) (k : ℕ)
    (h : a.type ≠ ToolType.mosaic) :
    renderAnnot m r1 k a = renderAnnot m r2 k a := by
  rcases a with ⟨i, ty, pts, st, tx⟩
  cases ty with
  | mosaic => exact absurd rfl h
  | select =>
    cases pts with
    | nil => rfl
    | cons p ps => cases ps <;> rfl
  | rect =>
    cases pts with
    | nil => rfl
    | cons p ps => cases ps <;> rfl
  | arrow =>
    cases pts with
    | nil => rfl
    | cons p ps => cases ps <;> rfl
  | text =>
    cases pts with
    | nil => rfl
    | cons p ps => cases ps <;> rfl

/-- The threaded fold over a mosaic-free list is independent of the random
stream. -/
theorem compositeGo_rngFree (m : MathEnv) (r1 r2 : ℕ → ℚ) (annots : List Annot)
    (k : ℕ) (h : ∀ a ∈ annots, a.type ≠ ToolType.mosaic) :
    compositeGo m r1 annots k = compositeGo m r2 annots k := by
  induction annots generalizing k with
  | nil => rfl
  | cons a as ih =>
    have hra := renderAnnot_rngFree m a r1 r2 k (h a (List.mem_cons_self a as))
    show (renderAnnot m r1 k a).1 ++ compositeGo m r1 as (renderAnnot m r1 k a).2 =
      (renderAnnot m r2 k a).1 ++ compositeGo m r2 as (renderAnnot m r2 k a).2
    rw [hra, ih _ (fun b hb => h b (List.mem_cons_of_mem a hb))]

/-- The one-block mosaic composite, evaluated for an arbitrary stream. -/
theorem composite_c6Mos_eval (r : ℕ → ℚ) :
    composite c6M "base" [c6Mos] r =
      [Cmd.drawImage "base", Cmd.setStyle "#ff0000" 3,
       Cmd.setFillGray (⌊r 0 * 100⌋ + 100), Cmd.fillRect 0 0 10 10] := by
  show Cmd.drawImage "base" ::
    ((renderAnnot c6M r 0 c6Mos).1 ++
      compositeGo c6M r [] (renderAnnot c6M r 0 c6Mos).2) = _
  have hsteps : mosaicSteps 5 = 1 := by
    unfold mosaicSteps
    rw [show (5 : ℚ) / 10 = 1 / 2 by norm_num]
    rw [Nat.ceil_eq_iff (by norm_num)]
    norm_num
  norm_num [renderAnnot, c6Mos, mosaicCells, hsteps, graySample, compositeGo,
    List.range_succ, List.range_zero, List.enum, List.enumFrom, min_def]

/-- Claim C6: compositing with only rect, arrow and text annotations gives the
same command trace for any two random streams; with a mosaic annotation present
two streams can give different traces, because each block samples a fresh gray
value. -/
theorem C6_composite_determinism :
    (∀ (m : MathEnv) (base : String) (annots : List Annot) (r1 r2 : ℕ → ℚ),
      (∀ a ∈ annots, a.type = ToolType.rect ∨ a.type = ToolType.arrow ∨
        a.type = ToolType.text) →
      composite m base annots r1 = composite m base annots r2) ∧
    composite c6M "base" [c6Mos] (fun _ => 0) ≠
      composite c6M "base" [c6Mos] (fun _ => 1 / 2) := by
  constructor
  · intro m base annots r1 r2 h
    unfold composite
    rw [compositeGo_rngFree m r1 r2 annots 0]
    intro a ha
    rcases h a ha with h' | h' | h' <;> simp [h']
  · intro hEq
    rw [composite_c6Mos_eval, composite_c6Mos_eval] at hEq
    norm_num at hEq

/-- Witness for C6 on a mosaic-free composite with two distinct streams. -/
theorem C6_composite_determinism_witness :
    (∀ a ∈ [c6Rect], a.type = ToolType.rect ∨ a.type = ToolType.arrow ∨
      a.type = ToolType.text) ∧
    composite c6M "base" [c6Rect] (fun _ => 0) =
      composite c6M "base" [c6Rect] (fun _ => 1 / 2) :=
  ⟨by decide, C6_composite_determinism.1 c6M "base" [c6Rect] _ _ (by decide)⟩

/-! ## Editor emission invariants -/

/-- One editor step preserves the machine invariant, and any annotation it
emits satisfies the point-count invariant (for a mouse-up, under the
tool-stability condition of the step). -/
theorem edStep_good (s : EdState) (e : EdEvent) (hinv : EdInv s)
    (hhd : edStableHead s e = true) :
    EdInv (edStep s e).1 ∧ ∀ a, (edStep s e).2 = some a → GoodEmit a := by
  cases e with
  | mouseDown t p =>
    refine ⟨?_, fun a ha => by simp [edStep] at ha⟩
    show EdInv (edMouseDown t p s)
    unfold edMouseDown
    by_cases h1 : t = ToolType.select
    · simpa [h1] using hinv
    · by_cases h2 : t = ToolType.text
      · simp only [if_neg h1, if_pos h2]
        exact ⟨hinv.1, hinv.2⟩
      · simp only [if_neg h1, if_neg h2]
        exact ⟨by simp, fun _ => ⟨h1, h2⟩⟩
  | mouseMove p =>
    refine ⟨?_, fun a ha => by simp [edStep] at ha⟩
    show EdInv (edMouseMove p s)
    unfold edMouseMove
    by_cases hd : s.isDrawing = true
    · simp only [if_pos hd]
      exact ⟨by simp, fun _ => hinv.2 hd⟩
    · simp only [if_neg hd]
      exact hinv
  | mouseUp i t c l =>
    show EdInv (edMouseUp i t c l s).1 ∧ ∀ a, (edMouseUp i t c l s).2 = some a → GoodEmit a
    unfold edMouseUp
    by_cases hd : s.isDrawing = true
    · have ht : t = s.dragTool := by
        have : (!s.isDrawing || decide (t = s.dragTool)) = true := hhd
        rw [hd] at this
        simpa using this
      by_cases hl : 2 ≤ s.currentPoints.length
      · simp only [if_pos hd, if_pos hl]
        refine ⟨⟨by simp, fun h => nomatch h⟩, fun a ha => ?_⟩
        have haeq : a = ⟨i, t, s.currentPoints, ⟨c, l, none⟩, none⟩ :=
          (Option.some.inj ha).symm
        subst haeq
        have hlen : s.currentPoints.length = 2 := le_antisymm hinv.1 hl
        refine ⟨fun _ => hlen, fun htext => ?_⟩
        exact absurd (ht ▸ htext) (hinv.2 hd).2
      · simp only [if_pos hd, if_neg hl]
        exact ⟨⟨by simp, fun h => nomatch h⟩, fun a ha => by simp at ha⟩
    · simp only [if_neg hd]
      exact ⟨hinv, fun a ha => by simp at ha⟩
  | setTextInput str =>
    refine ⟨⟨hinv.1, hinv.2⟩, fun a ha => by simp [edStep] at ha⟩
  | cancelText =>
    refine ⟨⟨hinv.1, hinv.2⟩, fun a ha => by simp [edStep] at ha⟩
  | submitText i c l =>
    show EdInv (edSubmitText i c l s).1 ∧
      ∀ a, (edSubmitText i c l s).2 = some a → GoodEmit a
    unfold edSubmitText
    cases hp : s.textPosition with
    | none => exact ⟨hinv, fun a ha => by simp at ha⟩
    | some p =>
      by_cases he : s.textInput = ""
      · simp only [if_pos he]
        exact ⟨hinv, fun a ha => by simp at ha⟩
      · simp only [if_neg he]
        refine ⟨⟨hinv.1, hinv.2⟩, fun a ha => ?_⟩
        have haeq : a = ⟨i, ToolType.text, [p], ⟨c, l, some 16⟩, some s.textInput⟩ :=
          (Option.some.inj ha).symm
        subst haeq
        refine ⟨fun h => ?_, fun _ => ⟨rfl, he⟩⟩
        rcases h with h | h | h <;> exact nomatch h

/-- Along any tool-stable trace from an invariant state, the invariant is
maintained and every emission satisfies the point-count invariant. -/
theorem edRun_good (es : List EdEvent) : ∀ s : EdState, EdInv s →
    edToolStable s es = true →
    EdInv (edRun s es).1 ∧ ∀ a ∈ (edRun s es).2, GoodEmit a := by
  induction es with
  | nil =>
    intro s hinv _
    exact ⟨hinv, fun a ha => by simp [edRun] at ha⟩
  | cons e es ih =>
    intro s hinv hst
    have hst' : (edStableHead s e && edToolStable (edStep s e).1 es) = true := hst
    rw [Bool.and_eq_true] at hst'
    have hstep := edStep_good s e hinv hst'.1
    have hrest := ih (edStep s e).1 hstep.1 hst'.2
    refine ⟨hrest.1, ?_⟩
    intro a ha
    have ha' : a ∈ (edStep s e).2.toList ++ (edRun (edStep s e).1 es).2 := ha
    rcases List.mem_append.mp ha' with h1 | h2
    · exact hstep.2 a (Option.mem_def.mp (Option.mem_toList.mp h1))
    · exact hrest.2 a h2

/-- Claim C10: along any tool-stable editor trace, every emitted rect, arrow
or mosaic annotation carries exactly two points, and every emitted text
annotation carries exactly one point and a non-empty text; moreover a
mouse-down immediately followed by a mouse-up (no intervening mouse-move)
emits nothing. -/
theorem C10_editor_emission_invariant :
    (∀ es : List EdEvent, edToolStable initEd es = true →
      ∀ a ∈ (edRun initEd es).2,
        ((a.type = ToolType.rect ∨ a.type = ToolType.arrow ∨
            a.type = ToolType.mosaic) → a.points.length = 2) ∧
        (a.type = ToolType.text → a.points.length = 1 ∧ a.text.getD "" ≠ "")) ∧
    (∀ (s : EdState) (tool tool2 : ToolType) (p : Point) (i c : String) (l : ℚ),
      s.isDrawing = false →
      (edMouseUp i tool2 c l (edMouseDown tool p s)).2 = none) := by
  constructor
  · intro es hst a ha
    exact (edRun_good es initEd ⟨by simp [initEd], fun h => nomatch h⟩ hst).2 a ha
  · intro s tool tool2 p i c l hnd
    unfold edMouseDown edMouseUp
    by_cases h1 : tool = ToolType.select
    · simp [h1, hnd]
    · by_cases h2 : tool = ToolType.text
      · simp [h1, h2, hnd]
      · simp [h1, h2]

/-- Witness for C10: the concrete rectangle-drag trace and a concrete
down-then-up pair. -/
theorem C10_editor_emission_invariant_witness :
    (edToolStable initEd c10Events = true ∧
      c10Ann ∈ (edRun initEd c10Events).2 ∧
      ((c10Ann.type = ToolType.rect ∨ c10Ann.type = ToolType.arrow ∨
          c10Ann.type = ToolType.mosaic) → c10Ann.points.length = 2) ∧
      (c10Ann.type = ToolType.text →
        c10Ann.points.length = 1 ∧ c10Ann.text.getD "" ≠ "")) ∧
    (initEd.isDrawing = false ∧
      (edMouseUp "2" ToolType.rect "#ff0000" 3
        (edMouseDown ToolType.rect ⟨1, 1⟩ initEd)).2 = none) :=
  ⟨⟨by decide, by decide,
    C10_editor_emission_invariant.1 c10Events (by decide) c10Ann (by decide)⟩,
   ⟨rfl, C10_editor_emission_invariant.2 initEd ToolType.rect ToolType.rect
      ⟨1, 1⟩ "2" "#ff0000" 3 rfl⟩⟩

end Prinsp
